import Mathlib

/-!
# Verification of the xanadu ingestion normalization pipeline

Shallow embedding of the market-resolution algorithm (`getMarket`,
`haversineDistance` selection loop), the article analyzer fallback logic
(`analyzeArticle` in both the ghost-webhook and the reprocess function),
the multi-topic fan-out of the ghost webhook handler, and the edit-ledger
logic of the update-article handler.

External collaborators (the geocoding service, the text-analysis service,
the persistence layer) are modelled as explicit oracle parameters; the
haversine distance itself is transcendental (sin/cos/atan2 over floats),
so the nearest-market selection loop is embedded parametrically in the
distance function, exactly as the loop in the source is agnostic to how
`haversineDistance` computes its value.
-/

namespace Xanadu

/-- Does `pat` occur as a contiguous sublist of the second argument? -/
def listInfixOf (pat : List Char) : List Char → Bool
  | [] => pat.isEmpty
  | c :: rest => pat.isPrefixOf (c :: rest) || listInfixOf pat rest

/-- JS `String.prototype.includes`: substring containment test. -/
def jsIncludes (s pat : String) : Bool :=
  listInfixOf pat.data s.data

/-- JS `String.prototype.toLowerCase()` on the ASCII names involved:
per-character lowercasing. -/
def jsToLower (s : String) : String :=
  ⟨s.data.map Char.toLower⟩

/-- Market anchor coordinates of `src/supabase/functions/ghost-webhook/index.ts`
(lines 10-28), in source (insertion) order.  Coordinates are the exact decimal
literals of the source, as rationals. -/
def MARKETS : List (String × ℚ × ℚ) :=
  [("Ark Valley", 37.0619, -97.0386),
   ("Pittsburg", 37.4109, -94.7049),
   ("Liberal", 37.0431, -100.9212),
   ("Garden City", 37.9717, -100.8727),
   ("Dodge City", 37.7528, -100.0171),
   ("Great Bend", 38.3645, -98.7648),
   ("McPherson", 38.3706, -97.6642),
   ("Newton", 38.0467, -97.3453),
   ("Salina", 38.8403, -97.6114),
   ("Hutchinson", 38.0608, -97.9298),
   ("Abilene", 38.9172, -97.2139),
   ("Junction City", 39.0286, -96.8314),
   ("Manhattan", 39.1836, -96.5717),
   ("Topeka", 39.0473, -95.6752),
   ("Lawrence", 38.9717, -95.2353),
   ("Hays", 38.8792, -99.3268),
   ("Emporia", 38.4039, -96.1817)]

/-- Market anchor coordinates of the reprocess function
(`src/unnamed/part_001`, lines 10-27), in source order.  This table lacks
the "Newton" entry present in the webhook table. -/
def REPROCESS_MARKETS : List (String × ℚ × ℚ) :=
  [("Ark Valley", 37.0619, -97.0386),
   ("Pittsburg", 37.4109, -94.7049),
   ("Liberal", 37.0431, -100.9212),
   ("Garden City", 37.9717, -100.8727),
   ("Dodge City", 37.7528, -100.0171),
   ("Great Bend", 38.3645, -98.7648),
   ("McPherson", 38.3706, -97.6642),
   ("Salina", 38.8403, -97.6114),
   ("Hutchinson", 38.0608, -97.9298),
   ("Abilene", 38.9172, -97.2139),
   ("Junction City", 39.0286, -96.8314),
   ("Manhattan", 39.1836, -96.5717),
   ("Topeka", 39.0473, -95.6752),
   ("Lawrence", 38.9717, -95.2353),
   ("Hays", 38.8792, -99.3268),
   ("Emporia", 38.4039, -96.1817)]

/-- Cities mapped directly to "At Large" (both files, identical). -/
def AT_LARGE_CITIES : List String :=
  ["kansas city", "wichita", "overland park", "olathe"]

/-- The nearest-market accumulation loop of `getMarket` (webhook lines 99-108,
reprocess lines 98-107): `nearestDistance` starts at `Infinity`, modelled as
`none`; an entry replaces the accumulator exactly when its distance is
strictly smaller (`distance < nearestDistance`, with everything `< Infinity`). -/
def nearestLoop (dist : ℚ × ℚ → ℚ) :
    List (String × ℚ × ℚ) → String × Option ℚ → String × Option ℚ
  | [], acc => acc
  | m :: rest, (nm, nd) =>
    let d := dist m.2
    let upd : Bool := match nd with
      | none => true
      | some x => decide (d < x)
    nearestLoop dist rest (if upd then (m.1, some d) else (nm, nd))

/-- The final threshold check of `getMarket` (line 111): assign to the nearest
market only when the minimal distance is within 30 miles, else "At Large".
`none` models `Infinity` and fails the `<= 30` test. -/
def finishNearest : String × Option ℚ → String
  | (nm, some d) => if d ≤ 30 then nm else "At Large"
  | (_, none) => "At Large"

/-- Function `getMarket` over a given anchor table (webhook lines 78-112 and the
textually identical reprocess lines 77-111, which differ only in the `MARKETS`
table in scope).  The external geocoding call is the oracle `geocode`
(`geocodeLocation` returns a coordinate or `null`); the transcendental
`haversineDistance` is the parameter `dist`, applied as in line 103 to the
geocoded coordinate and each anchor. -/
def getMarketOver (markets : List (String × ℚ × ℚ))
    (geocode : String → Option (ℚ × ℚ)) (dist : ℚ × ℚ → ℚ × ℚ → ℚ)
    (location : String) : String :=
  let locationLower := jsToLower location
  if AT_LARGE_CITIES.any (fun city => jsIncludes locationLower city) then
    "At Large"
  else
    match markets.find? (fun m => jsToLower m.1 == locationLower) with
    | some m => m.1
    | none =>
      match geocode location with
      | none => "At Large"
      | some coords =>
        finishNearest (nearestLoop (fun a => dist coords a) markets ("At Large", none))

/-- Function `getMarket` of the ghost webhook. -/
def getMarket (geocode : String → Option (ℚ × ℚ)) (dist : ℚ × ℚ → ℚ × ℚ → ℚ)
    (location : String) : String :=
  getMarketOver MARKETS geocode dist location

/-- Function `getMarket` of the reprocess function (`src/unnamed/part_001`). -/
def reprocessGetMarket (geocode : String → Option (ℚ × ℚ)) (dist : ℚ × ℚ → ℚ × ℚ → ℚ)
    (location : String) : String :=
  getMarketOver REPROCESS_MARKETS geocode dist location

/-! ## ArticleAnalyzer (ghost webhook, lines 114-185) -/

/-- Topic record produced by `analyzeArticle` (webhook lines 114-120). -/
structure Topic where
  title : String
  location : String
  is_local : Bool
  bullet : String
  priority : ℚ
  deriving DecidableEq, Repr

/-- Raw topic fields as parsed from the service's JSON, before sanitization
(webhook line 170, `Partial<Topic>`): each field may be absent, and a present
priority is an untrusted JSON number (not necessarily an integer), modelled
as a rational. -/
structure RawTopic where
  title : Option String
  location : Option String
  is_local : Option Bool
  bullet : Option String
  priority : Option ℚ
  deriving DecidableEq, Repr

/-- JS `a || b` on an optional string: `undefined`/`null` and the empty
string are falsy and fall through to the default. -/
def jsOrStr (o : Option String) (dflt : String) : String :=
  match o with
  | none => dflt
  | some s => if s = "" then dflt else s

/-- JS `t.is_local !== false`: everything except the literal `false` is local. -/
def jsIsLocal (o : Option Bool) : Bool :=
  match o with
  | some false => false
  | _ => true

/-- Priority sanitization of the ghost webhook (line 175):
`(t.priority && t.priority >= 1 && t.priority <= 5) ? Math.max(t.priority, 4) : 4`. -/
def ghostPriority (o : Option ℚ) : ℚ :=
  match o with
  | none => 4
  | some p => if p ≠ 0 ∧ 1 ≤ p ∧ p ≤ 5 then max p 4 else 4

/-- Per-topic sanitization of the ghost webhook (lines 170-176). -/
def sanitizeTopic (srcTitle defaultCity : String) (t : RawTopic) : Topic :=
  { title := jsOrStr t.title srcTitle
    location := jsOrStr t.location defaultCity
    is_local := jsIsLocal t.is_local
    bullet := jsOrStr t.bullet ""
    priority := ghostPriority t.priority }

/-- Outcome of the external text-analysis call, as observed by
`analyzeArticle`: the API key may be absent; the request or `JSON.parse`
may throw; or parsing succeeds, yielding a `topics` array or not
(`none` models a JSON object without a usable `topics` array). -/
inductive AnalysisOutcome where
  | noKey
  | threw
  | parsed (topics : Option (List RawTopic))
  deriving DecidableEq, Repr

/-- Function `analyzeArticle` of the ghost webhook (lines 122-185), with the
external service call abstracted into the `outcome` argument.  The `content`
argument only feeds the prompt (line 130) and does not influence the shape of
the result. -/
def analyzeArticle (title content defaultCity : String)
    (outcome : AnalysisOutcome) : List Topic :=
  match outcome with
  | .noKey =>
    [{ title := title, location := defaultCity, is_local := true, bullet := "", priority := 3 }]
  | .threw =>
    [{ title := title, location := defaultCity, is_local := true, bullet := "", priority := 4 }]
  | .parsed topics =>
    let _ := content.take 6000
    match topics with
    | some l =>
      if l.length > 0 then
        l.map (sanitizeTopic title defaultCity)
      else
        [{ title := title, location := defaultCity, is_local := true, bullet := "", priority := 4 }]
    | none =>
      [{ title := title, location := defaultCity, is_local := true, bullet := "", priority := 4 }]

/-! ## ArticleAnalyzer (reprocess function, `src/unnamed/part_001` lines 113-166) -/

/-- Analysis record of the reprocess function (single topic, no list). -/
structure ReAnalysis where
  location : String
  is_local : Bool
  bullet : String
  priority : ℚ
  deriving DecidableEq, Repr

/-- Raw parsed JSON fields of the reprocess analyzer; a present priority is
an untrusted JSON number (not necessarily an integer), modelled as a
rational. -/
structure RawReAnalysis where
  location : Option String
  is_local : Option Bool
  bullet : Option String
  priority : Option ℚ
  deriving DecidableEq, Repr

/-- Outcome of the external call in the reprocess analyzer. -/
inductive ReOutcome where
  | noKey
  | threw
  | parsed (p : RawReAnalysis)
  deriving DecidableEq, Repr

/-- Priority sanitization of the reprocess analyzer (part_001 line 160):
`(parsed.priority >= 1 && parsed.priority <= 5) ? parsed.priority : 3`;
a missing priority fails the comparison and yields 3. -/
def reprocessPriority (o : Option ℚ) : ℚ :=
  match o with
  | none => 3
  | some p => if 1 ≤ p ∧ p ≤ 5 then p else 3

/-- Function `analyzeArticle` of the reprocess function (part_001 lines
114-166): always a single record, with hardcoded default location "Kansas". -/
def reprocessAnalyze (title content : String) (outcome : ReOutcome) : ReAnalysis :=
  match outcome with
  | .noKey => { location := "Kansas", is_local := true, bullet := "", priority := 3 }
  | .threw => { location := "Kansas", is_local := true, bullet := "", priority := 3 }
  | .parsed p =>
    let _ := title
    let _ := content.take 4000
    { location := jsOrStr p.location "Kansas"
      is_local := jsIsLocal p.is_local
      bullet := jsOrStr p.bullet ""
      priority := reprocessPriority p.priority }

/-! ## Ghost webhook fan-out (webhook lines 283-331) -/

/-- Synthetic URL per topic (webhook line 287):
`topics.length > 1 ? url + "?topic=" + (i + 1) : url`. -/
def topicUrl (url : String) (total i : Nat) : String :=
  if total > 1 then url ++ "?topic=" ++ Nat.repr (i + 1) else url

/-- Row passed to the `first_party_articles` upsert (webhook lines 295-308).
Timestamps are carried as opaque strings. -/
structure ArticleRecord where
  source_id : Int
  title : String
  url : String
  content : String
  published_at : String
  fetched_at : String
  is_accessible : Bool
  location : String
  is_local : Bool
  bullet : String
  priority : ℚ
  market : String
  deriving DecidableEq, Repr

/-- Entry collected into `insertedArticles` on upsert success (line 319). -/
structure InsertedEntry where
  id : Int
  title : String
  location : String
  market : String
  deriving DecidableEq, Repr

/-- Record built for topic index `i` out of `total` (webhook lines 293-311):
URL is the (possibly synthesized) topic URL; content is replaced by a
`[Part of: ...]` stub when fanning out. -/
def fanoutRecord (geocode : String → Option (ℚ × ℚ)) (dist : ℚ × ℚ → ℚ × ℚ → ℚ)
    (sourceId : Int) (origTitle url content publishedAt now : String)
    (total i : Nat) (t : Topic) : ArticleRecord :=
  { source_id := sourceId
    title := t.title
    url := topicUrl url total i
    content := if total > 1 then "[Part of: " ++ origTitle ++ "]" else content
    published_at := publishedAt
    fetched_at := now
    is_accessible := true
    location := t.location
    is_local := t.is_local
    bullet := t.bullet
    priority := t.priority
    market := getMarket geocode dist t.location }

/-- The per-topic insertion loop (webhook lines 283-321).  The persistence
upsert is the oracle `upsert`, returning the stored row's id on success and
`none` on `insertError`; a failed upsert is skipped (only logged) and the
loop continues with the remaining topics. -/
def fanoutGo (geocode : String → Option (ℚ × ℚ)) (dist : ℚ × ℚ → ℚ × ℚ → ℚ)
    (sourceId : Int) (origTitle url content publishedAt now : String)
    (upsert : Nat → ArticleRecord → Option Int) (total : Nat) :
    Nat → List Topic → List InsertedEntry
  | _, [] => []
  | i, t :: rest =>
    let record := fanoutRecord geocode dist sourceId origTitle url content publishedAt now total i t
    let tail := fanoutGo geocode dist sourceId origTitle url content publishedAt now upsert total (i + 1) rest
    match upsert i record with
    | none => tail
    | some aid =>
      { id := aid, title := t.title, location := t.location,
        market := getMarket geocode dist t.location } :: tail

/-- Fan-out over the topics returned by `analyzeArticle` (webhook lines
283-321), collecting `insertedArticles`. -/
def fanout (geocode : String → Option (ℚ × ℚ)) (dist : ℚ × ℚ → ℚ × ℚ → ℚ)
    (sourceId : Int) (origTitle url content publishedAt now : String)
    (upsert : Nat → ArticleRecord → Option Int) (topics : List Topic) :
    List InsertedEntry :=
  fanoutGo geocode dist sourceId origTitle url content publishedAt now upsert topics.length 0 topics

/-! ## Update-article handler (`src/supabase/functions/update-article/index.ts`) -/

/-- JS values as they appear in the fetched row and the `changes` object. -/
inductive JSValue where
  | str (s : String)
  | num (n : Int)
  | boolean (b : Bool)
  | null
  | undefined
  deriving DecidableEq, Repr

/-- Expression `v?.toString() || null` (lines 179-180): `null`/`undefined`
short-circuit to `null` via optional chaining; the stringified value falls
through `||` to `null` exactly when it is the empty string. -/
def toStringOrNull : JSValue → Option String
  | .str s => if s = "" then none else some s
  | .num n => some (toString n)
  | .boolean b => some (if b then "true" else "false")
  | .null => none
  | .undefined => none

/-- Columns fetched for logging (line 158: `select("priority, market, bullet")`). -/
structure Current where
  priority : JSValue
  market : JSValue
  bullet : JSValue
  deriving DecidableEq, Repr

/-- JS `current[field]` on the fetched three-column row. -/
def currentGet (c : Current) : String → JSValue
  | "priority" => c.priority
  | "market" => c.market
  | "bullet" => c.bullet
  | _ => .undefined

/-- Row inserted into `article_edits` (lines 175-182). -/
structure EditRow where
  article_id : Int
  table_name : String
  field_name : String
  old_value : Option String
  new_value : Option String
  edited_by : Option String
  deriving DecidableEq, Repr

/-- The edit-collection loop (lines 171-184): one row per entry of `changes`
whose current value differs (strict `!==`) from the new value. -/
def computeEdits (id : Int) (table : String) (user : Option String)
    (c : Current) (changes : List (String × JSValue)) : List EditRow :=
  changes.filterMap fun fv =>
    let oldValue := currentGet c fv.1
    if oldValue = fv.2 then none
    else some { article_id := id, table_name := table, field_name := fv.1,
                old_value := toStringOrNull oldValue,
                new_value := toStringOrNull fv.2,
                edited_by := user }

/-- Responses of the field-update path of the update-article handler. -/
inductive UpdateResponse where
  | missingFields
  | invalidTable
  | noChanges
  | notFound
  | updateFailed
  | ok
  deriving DecidableEq, Repr

/-- Field-update path of the update-article handler (lines 129-217), as a
function of the request, the fetched row (`none` = fetch error / not found),
and oracles for the two writes: `ledgerInsertOk` is whether the
`article_edits` insert succeeds (its failure is only logged, line 192), and
`updateOk` is whether the primary `update` succeeds.  The state threaded
through is the list of `article_edits` rows; the result pairs the HTTP-level
response with the final ledger state. -/
def updateHandler (id : Int) (table : String) (user : Option String)
    (changes : List (String × JSValue)) (fetchResult : Option Current)
    (ledgerInsertOk updateOk : Bool) (ledger : List EditRow) :
    UpdateResponse × List EditRow :=
  if id = 0 ∨ table = "" then (.missingFields, ledger)
  else if table ≠ "articles" ∧ table ≠ "first_party_articles" then (.invalidTable, ledger)
  else if changes.length = 0 then (.noChanges, ledger)
  else
    match fetchResult with
    | none => (.notFound, ledger)
    | some current =>
      let edits := computeEdits id table user current changes
      let ledger' :=
        if edits.length > 0 then
          if ledgerInsertOk then ledger ++ edits else ledger
        else ledger
      if updateOk then (.ok, ledger') else (.updateFailed, ledger')

/-! ## Helper lemmas -/

theorem ghostPriority_range (o : Option ℚ) :
    1 ≤ ghostPriority o ∧ ghostPriority o ≤ 5 := by
  match o with
  | none => norm_num [ghostPriority]
  | some p =>
    by_cases h : p ≠ 0 ∧ 1 ≤ p ∧ p ≤ 5
    · simp only [ghostPriority, if_pos h]
      exact ⟨le_max_of_le_right (by norm_num), max_le h.2.2 (by norm_num)⟩
    · simp only [ghostPriority, if_neg h]
      norm_num

theorem reprocessPriority_range (o : Option ℚ) :
    1 ≤ reprocessPriority o ∧ reprocessPriority o ≤ 5 := by
  match o with
  | none => norm_num [reprocessPriority]
  | some p =>
    by_cases h : 1 ≤ p ∧ p ≤ 5
    · simp only [reprocessPriority, if_pos h]
      exact h
    · simp only [reprocessPriority, if_neg h]
      norm_num

theorem find?_eq_of_key_match {l : List (String × ℚ × ℚ)} {m : String × ℚ × ℚ}
    {key : String} (hm : m ∈ l) (hkey : jsToLower m.1 = key)
    (hnd : (l.map (fun x => jsToLower x.1)).Nodup) :
    l.find? (fun x => jsToLower x.1 == key) = some m := by
  induction l with
  | nil => cases hm
  | cons a t ih =>
    have hnd' : jsToLower a.1 ∉ t.map (fun x => jsToLower x.1) ∧
        (t.map (fun x => jsToLower x.1)).Nodup := by
      simpa using hnd
    rcases List.mem_cons.mp hm with rfl | hmt
    · exact List.find?_cons_of_pos _ (by simp [hkey])
    · by_cases hpa : jsToLower a.1 = key
      · exfalso
        apply hnd'.1
        rw [hpa, ← hkey]
        exact List.mem_map_of_mem _ hmt
      · rw [List.find?_cons_of_neg _ (by simp [hpa])]
        exact ih hmt hnd'.2

/-! ## Claim theorems -/

/-- C1: for every title, body, and default location, `analyzeArticle` returns a
non-empty list of Topics for every outcome of the external service (totality of
the Lean function models "never raises to its caller"), and in each degraded
case (no API key, thrown error, unparseable output, empty topic list) the
result is the single fallback Topic with the default location, `is_local`
true, empty bullet and the default priority (3 when unconfigured, 4 on the
ghost failure paths); the reprocess analyzer likewise degrades to its fixed
single-record fallback. -/
theorem analyze_total_nonempty (title content defaultCity : String)
    (outcome : AnalysisOutcome) :
    0 < (analyzeArticle title content defaultCity outcome).length
    ∧ analyzeArticle title content defaultCity .noKey =
        [{ title := title, location := defaultCity, is_local := true, bullet := "", priority := 3 }]
    ∧ analyzeArticle title content defaultCity .threw =
        [{ title := title, location := defaultCity, is_local := true, bullet := "", priority := 4 }]
    ∧ analyzeArticle title content defaultCity (.parsed none) =
        [{ title := title, location := defaultCity, is_local := true, bullet := "", priority := 4 }]
    ∧ analyzeArticle title content defaultCity (.parsed (some [])) =
        [{ title := title, location := defaultCity, is_local := true, bullet := "", priority := 4 }]
    ∧ reprocessAnalyze title content .noKey =
        { location := "Kansas", is_local := true, bullet := "", priority := 3 }
    ∧ reprocessAnalyze title content .threw =
        { location := "Kansas", is_local := true, bullet := "", priority := 3 } := by
  refine ⟨?_, rfl, rfl, rfl, rfl, rfl, rfl⟩
  match outcome with
  | .noKey => simp [analyzeArticle]
  | .threw => simp [analyzeArticle]
  | .parsed none => simp [analyzeArticle]
  | .parsed (some l) =>
    by_cases h : l.length > 0 <;> simp [analyzeArticle, h]

/-- C6 counterexample: the analyzers do not force integer priorities.  A
service response with the non-integer in-range priority 4.5 = 9/2 passes the
ghost sanitizer unchanged (`Math.max(4.5, 4)` is `4.5`), and 2.5 = 5/2 passes
the reprocess sanitizer verbatim; neither value is an integer, refuting the
claim that every priority returned by analyze is an integer in [1,5]. -/
theorem analyze_priority_non_integer :
    (analyzeArticle "T" "body" "Salina"
        (.parsed (some [⟨none, none, none, none, some (9/2)⟩]))).map Topic.priority = [9/2]
    ∧ (reprocessAnalyze "T" "body" (.parsed ⟨none, none, none, some (5/2)⟩)).priority = 5/2
    ∧ ¬(∃ k : ℤ, ((9 : ℚ)/2) = (k : ℚ))
    ∧ ¬(∃ k : ℤ, ((5 : ℚ)/2) = (k : ℚ)) := by
  refine ⟨?_, ?_, ?_, ?_⟩
  · have hc : ((9 : ℚ)/2) ≠ 0 ∧ 1 ≤ ((9 : ℚ)/2) ∧ ((9 : ℚ)/2) ≤ 5 := by norm_num
    have hp : ghostPriority (some ((9 : ℚ)/2)) = 9/2 := by
      simp only [ghostPriority, if_pos hc]
      exact max_eq_left (by norm_num)
    simp [analyzeArticle, sanitizeTopic, hp]
  · have hc : 1 ≤ ((5 : ℚ)/2) ∧ ((5 : ℚ)/2) ≤ 5 := by norm_num
    simp [reprocessAnalyze, reprocessPriority, hc]
  · rintro ⟨k, hk⟩
    have h2 : (k : ℚ) * 2 = 9 := by rw [← hk]; norm_num
    have h3 : k * 2 = 9 := by exact_mod_cast h2
    omega
  · rintro ⟨k, hk⟩
    have h2 : (k : ℚ) * 2 = 5 := by rw [← hk]; norm_num
    have h3 : k * 2 = 5 := by exact_mod_cast h2
    omega

/-- C6 as amended: every Topic returned by either analyzer carries a priority
in the interval [1,5] — but not necessarily an integer, since an in-range
non-integer number from the service survives sanitization; a missing or
out-of-range priority is replaced by the caller's integer default (4 for the
ghost feed, 3 for the reprocess function), and an in-range value is floored
via `max(value, 4)` by the ghost analyzer and kept verbatim (no floor) by the
reprocess analyzer. -/
theorem analyze_priority_range (title content defaultCity : String)
    (outcome : AnalysisOutcome) (r : ReOutcome) :
    (∀ t ∈ analyzeArticle title content defaultCity outcome,
       1 ≤ t.priority ∧ t.priority ≤ 5)
    ∧ (1 ≤ (reprocessAnalyze title content r).priority
        ∧ (reprocessAnalyze title content r).priority ≤ 5)
    ∧ ghostPriority none = 4
    ∧ (∀ p : ℚ, ¬(1 ≤ p ∧ p ≤ 5) → ghostPriority (some p) = 4)
    ∧ (∀ p : ℚ, 1 ≤ p → p ≤ 5 → ghostPriority (some p) = max p 4)
    ∧ reprocessPriority none = 3
    ∧ (∀ p : ℚ, ¬(1 ≤ p ∧ p ≤ 5) → reprocessPriority (some p) = 3)
    ∧ (∀ p : ℚ, 1 ≤ p → p ≤ 5 → reprocessPriority (some p) = p) := by
  refine ⟨?_, ?_, rfl, ?_, ?_, rfl, ?_, ?_⟩
  · intro t ht
    match outcome with
    | .noKey => simp [analyzeArticle] at ht; rw [ht]; norm_num
    | .threw => simp [analyzeArticle] at ht; rw [ht]; norm_num
    | .parsed none => simp [analyzeArticle] at ht; rw [ht]; norm_num
    | .parsed (some l) =>
      by_cases h : l.length > 0
      · simp [analyzeArticle, h] at ht
        obtain ⟨raw, _, rfl⟩ := ht
        exact ghostPriority_range raw.priority
      · simp [analyzeArticle, h] at ht
        rw [ht]; norm_num
  · match r with
    | .noKey => exact ⟨by norm_num [reprocessAnalyze], by norm_num [reprocessAnalyze]⟩
    | .threw => exact ⟨by norm_num [reprocessAnalyze], by norm_num [reprocessAnalyze]⟩
    | .parsed p => exact reprocessPriority_range p.priority
  · intro p hp
    have h0 : ¬(p ≠ 0 ∧ 1 ≤ p ∧ p ≤ 5) := fun hc => hp ⟨hc.2.1, hc.2.2⟩
    simp [ghostPriority, h0]
  · intro p h1 h5
    have h0 : p ≠ 0 ∧ 1 ≤ p ∧ p ≤ 5 :=
      ⟨(lt_of_lt_of_le zero_lt_one h1).ne', h1, h5⟩
    simp [ghostPriority, h0]
  · intro p hp
    simp [reprocessPriority, hp]
  · intro p h1 h5
    have h : 1 ≤ p ∧ p ≤ 5 := ⟨h1, h5⟩
    simp [reprocessPriority, h]

/-- Witness for C6 at concrete inputs: a service response with priorities 9
(out of range), 2 (in range, floored to 4) and a missing priority. -/
theorem analyze_priority_range_witness :
    (∀ t ∈ analyzeArticle "T" "body" "Salina"
        (.parsed (some [⟨none, none, none, none, some 9⟩,
                        ⟨none, none, none, none, some 2⟩,
                        ⟨none, none, none, none, none⟩])),
       1 ≤ t.priority ∧ t.priority ≤ 5)
    ∧ ghostPriority (some 9) = 4
    ∧ ghostPriority (some 2) = max 2 4
    ∧ reprocessPriority (some 9) = 3
    ∧ reprocessPriority (some 2) = 2 :=
  ⟨(analyze_priority_range "T" "body" "Salina" _ .noKey).1,
   (analyze_priority_range "T" "body" "Salina" .noKey .noKey).2.2.2.1 9 (by norm_num),
   (analyze_priority_range "T" "body" "Salina" .noKey .noKey).2.2.2.2.1 2 (by norm_num) (by norm_num),
   (analyze_priority_range "T" "body" "Salina" .noKey .noKey).2.2.2.2.2.2.1 9 (by norm_num),
   (analyze_priority_range "T" "body" "Salina" .noKey .noKey).2.2.2.2.2.2.2 2 (by norm_num) (by norm_num)⟩

/-- C5: the edit-ledger loop appends a row for a field exactly when the
field's current value differs (strict `!==`) from the new value; in
particular, updating `priority` from 3 to 3 produces zero ledger rows while
updating it from 3 to 5 produces exactly one row with old_value "3" and
new_value "5". -/
theorem editLedger_row_iff_changed (id : Int) (table : String) (user : Option String)
    (c : Current) (changes : List (String × JSValue))
    (hnd : (changes.map Prod.fst).Nodup) :
    (∀ fv ∈ changes,
      (∃ r ∈ computeEdits id table user c changes, r.field_name = fv.1) ↔
        currentGet c fv.1 ≠ fv.2)
    ∧ computeEdits 7 "articles" none
        ⟨.num 3, .str "At Large", .str "b"⟩ [("priority", .num 3)] = []
    ∧ computeEdits 7 "articles" none
        ⟨.num 3, .str "At Large", .str "b"⟩ [("priority", .num 5)] =
        [{ article_id := 7, table_name := "articles", field_name := "priority",
           old_value := some "3", new_value := some "5", edited_by := none }] := by
  refine ⟨?_, by decide, by decide⟩
  intro fv hfv
  constructor
  · rintro ⟨r, hr, hfield⟩
    obtain ⟨a, ha, hga⟩ := List.mem_filterMap.mp hr
    by_cases heq : currentGet c a.1 = a.2
    · simp [heq] at hga
    · simp only [if_neg heq, Option.some.injEq] at hga
      subst hga
      have hfa : a.1 = fv.1 := hfield
      have : a = fv := List.inj_on_of_nodup_map hnd ha hfv hfa
      rw [← this]
      exact heq
  · intro hne
    refine ⟨{ article_id := id, table_name := table, field_name := fv.1,
              old_value := toStringOrNull (currentGet c fv.1),
              new_value := toStringOrNull fv.2, edited_by := user }, ?_, rfl⟩
    exact List.mem_filterMap.mpr ⟨fv, hfv, by simp only [if_neg hne]⟩

/-- Witness for C5: a two-field change set where only the bullet differs. -/
theorem editLedger_row_iff_changed_witness :
    ((∃ r ∈ computeEdits 7 "articles" none
        ⟨.num 3, .str "At Large", .str "b"⟩
        [("priority", .num 3), ("bullet", .str "c")],
       r.field_name = "bullet") ↔
      currentGet ⟨.num 3, .str "At Large", .str "b"⟩ "bullet" ≠ .str "c") :=
  (editLedger_row_iff_changed 7 "articles" none
      ⟨.num 3, .str "At Large", .str "b"⟩
      [("priority", .num 3), ("bullet", .str "c")] (by decide)).1
    ("bullet", .str "c") (by decide)

/-- C8 counterexample: with an empty-string bullet as the old value, the
ledger row records `old_value = null`, not the empty string — the `|| null`
fallback coerces the stringified empty string to null, so null is not
represented distinctly from the empty string. -/
theorem emptyString_recorded_as_null :
    (computeEdits 1 "articles" none ⟨.num 3, .str "m", .str ""⟩
        [("bullet", .str "x")]).map EditRow.old_value = [none]
    ∧ ((none : Option String) ≠ some "") := by
  decide

/-- C8 amended: ledger values are stored as text with numbers and booleans
stringified and null stored as null, but the empty string is coerced to null
by the `|| null` fallback (it is NOT represented distinctly from null); only
non-empty strings are stored verbatim. -/
theorem ledger_values_stringified (n : Int) (b : Bool) (s : String) (hs : s ≠ "") :
    toStringOrNull (.num n) = some (toString n)
    ∧ toStringOrNull (.boolean b) = some (if b then "true" else "false")
    ∧ toStringOrNull .null = none
    ∧ toStringOrNull .undefined = none
    ∧ toStringOrNull (.str "") = none
    ∧ toStringOrNull (.str s) = some s := by
  refine ⟨rfl, rfl, rfl, rfl, rfl, ?_⟩
  simp [toStringOrNull, hs]

/-- Witness for C8's amended statement at concrete values. -/
theorem ledger_values_stringified_witness :
    toStringOrNull (.num 3) = some (toString (3 : Int))
    ∧ toStringOrNull (.boolean true) = some (if true then "true" else "false")
    ∧ toStringOrNull .null = none
    ∧ toStringOrNull .undefined = none
    ∧ toStringOrNull (.str "") = none
    ∧ toStringOrNull (.str "a") = some "a" :=
  ledger_values_stringified 3 true "a" (by decide)

/-- C9: in the update-article handler the ledger rows for changed fields are
inserted before the primary update is attempted, so when the ledger insert
succeeds and the primary update then fails, the handler returns the
update-failed error while the final ledger state still contains the appended
rows — the ledger append is not atomic with the primary mutation. -/
theorem ledger_rows_survive_failed_update (id : Int) (table : String)
    (user : Option String) (changes : List (String × JSValue)) (c : Current)
    (ledger : List EditRow) (hid : id ≠ 0)
    (htab : table = "articles" ∨ table = "first_party_articles")
    (hch : changes.length ≠ 0) :
    (updateHandler id table user changes (some c) true false ledger).1 = .updateFailed
    ∧ (updateHandler id table user changes (some c) true false ledger).2 =
        ledger ++ computeEdits id table user c changes := by
  have h1 : ¬(id = 0 ∨ table = "") := by
    rcases htab with h | h <;> simp [hid, h]
  have h2 : ¬(table ≠ "articles" ∧ table ≠ "first_party_articles") := by
    rcases htab with h | h <;> simp [h]
  by_cases h3 : (computeEdits id table user c changes).length > 0
  · simp [updateHandler, h1, h2, hch, h3]
  · have h4 : computeEdits id table user c changes = [] := by
      rcases List.eq_nil_or_concat (computeEdits id table user c changes) with h | ⟨l, a, h⟩
      · exact h
      · exfalso; rw [h] at h3; simp at h3
    simp [updateHandler, h1, h2, hch, h3, h4]

/-- Witness for C9: a priority change 3 → 5 whose primary update fails keeps
its ledger row. -/
theorem ledger_rows_survive_failed_update_witness :
    (updateHandler 7 "articles" none [("priority", .num 5)]
        (some ⟨.num 3, .str "At Large", .str "b"⟩) true false []).1 = .updateFailed
    ∧ (updateHandler 7 "articles" none [("priority", .num 5)]
        (some ⟨.num 3, .str "At Large", .str "b"⟩) true false []).2 =
        [] ++ computeEdits 7 "articles" none
          ⟨.num 3, .str "At Large", .str "b"⟩ [("priority", .num 5)] :=
  ledger_rows_survive_failed_update 7 "articles" none [("priority", .num 5)]
    ⟨.num 3, .str "At Large", .str "b"⟩ [] (by decide) (Or.inl rfl) (by decide)

/-- C10: the market anchor table of the webhook ingestion resolver contains
"Newton" while the reprocess resolver's table does not, and the two
`getMarket` functions are not extensionally equal: on the location string
"Newton" the webhook resolver answers "Newton" by exact name match for every
geocoding oracle and distance function, while the reprocess resolver falls
through to geocoding and answers "At Large" when geocoding yields nothing. -/
theorem markets_tables_differ (geocode : String → Option (ℚ × ℚ))
    (dist : ℚ × ℚ → ℚ × ℚ → ℚ) :
    ("Newton" ∈ MARKETS.map Prod.fst)
    ∧ ("Newton" ∉ REPROCESS_MARKETS.map Prod.fst)
    ∧ getMarket geocode dist "Newton" = "Newton"
    ∧ reprocessGetMarket (fun _ => none) dist "Newton" = "At Large"
    ∧ ¬(∀ g d loc, getMarket g d loc = reprocessGetMarket g d loc) := by
  have hshort : (AT_LARGE_CITIES.any fun city => jsIncludes (jsToLower "Newton") city) = false := by
    decide
  have hfind0 : (MARKETS.find? (fun m => jsToLower m.1 == jsToLower "Newton")).map Prod.fst =
      some "Newton" := by decide
  obtain ⟨e, hfind, hename⟩ : ∃ e, MARKETS.find? (fun m => jsToLower m.1 == jsToLower "Newton") =
      some e ∧ e.1 = "Newton" := by
    match hf : MARKETS.find? (fun m => jsToLower m.1 == jsToLower "Newton") with
    | none => rw [hf] at hfind0; simp at hfind0
    | some e =>
      rw [hf] at hfind0
      simp at hfind0
      exact ⟨e, hf, hfind0⟩
  have hfind2m : (REPROCESS_MARKETS.find? (fun m => jsToLower m.1 == jsToLower "Newton")).map
      Prod.fst = none := by decide
  have hfind2 : REPROCESS_MARKETS.find? (fun m => jsToLower m.1 == jsToLower "Newton") =
      (none : Option (String × ℚ × ℚ)) := by
    match hf : REPROCESS_MARKETS.find? (fun m => jsToLower m.1 == jsToLower "Newton") with
    | none => rfl
    | some e => rw [hf] at hfind2m; simp at hfind2m
  have h1 : ∀ (g : String → Option (ℚ × ℚ)) (d : ℚ × ℚ → ℚ × ℚ → ℚ),
      getMarket g d "Newton" = "Newton" := by
    intro g d
    simp [getMarket, getMarketOver, hshort, hfind, hename]
  have h2 : ∀ (d : ℚ × ℚ → ℚ × ℚ → ℚ),
      reprocessGetMarket (fun _ => none) d "Newton" = "At Large" := by
    intro d
    simp [reprocessGetMarket, getMarketOver, hshort, hfind2]
  refine ⟨by decide, by decide, h1 geocode dist, h2 dist, ?_⟩
  intro h
  have := (h (fun _ => none) (fun _ _ => 0) "Newton").symm.trans (h1 _ _)
  rw [h2] at this
  exact absurd this (by decide)

/-- C2: a location whose lowercasing contains a large-city shortlist entry as
a substring resolves to "At Large" with no geocoding (the result does not
depend on the geocoding oracle or the distance function), this check taking
precedence over everything else; a location matching no shortlist entry whose
lowercasing equals a market name's lowercasing resolves to that market,
again independently of the geocoding oracle and distance function. -/
theorem resolve_shortcuts (loc : String) (g g' : String → Option (ℚ × ℚ))
    (d d' : ℚ × ℚ → ℚ × ℚ → ℚ) :
    ((AT_LARGE_CITIES.any fun city => jsIncludes (jsToLower loc) city) = true →
      getMarket g d loc = "At Large" ∧ getMarket g d loc = getMarket g' d' loc)
    ∧ ((AT_LARGE_CITIES.any fun city => jsIncludes (jsToLower loc) city) = false →
      ∀ m ∈ MARKETS, jsToLower m.1 = jsToLower loc →
        getMarket g d loc = m.1 ∧ getMarket g d loc = getMarket g' d' loc) := by
  constructor
  · intro h
    constructor <;> simp [getMarket, getMarketOver, h]
  · intro h m hm hkey
    have hnd : (MARKETS.map (fun x => jsToLower x.1)).Nodup := by decide
    have hfind := find?_eq_of_key_match hm hkey hnd
    constructor <;> simp [getMarket, getMarketOver, h, hfind]

/-- Witness for C2: "Wichita" hits the shortlist; "SALINA" matches the market
"Salina" case-insensitively; both results ignore the oracles. -/
theorem resolve_shortcuts_witness :
    (getMarket (fun _ => some (0, 0)) (fun _ _ => 0) "Wichita" = "At Large"
      ∧ getMarket (fun _ => some (0, 0)) (fun _ _ => 0) "Wichita" =
          getMarket (fun _ => none) (fun _ _ => 1) "Wichita")
    ∧ (getMarket (fun _ => some (0, 0)) (fun _ _ => 0) "SALINA" = "Salina"
      ∧ getMarket (fun _ => some (0, 0)) (fun _ _ => 0) "SALINA" =
          getMarket (fun _ => none) (fun _ _ => 1) "SALINA") :=
  ⟨(resolve_shortcuts "Wichita" (fun _ => some (0, 0)) (fun _ => none)
      (fun _ _ => 0) (fun _ _ => 1)).1 (by decide),
   (resolve_shortcuts "SALINA" (fun _ => some (0, 0)) (fun _ => none)
      (fun _ _ => 0) (fun _ _ => 1)).2 (by decide)
      ("Salina", 38.8403, -97.6114) (by simp [MARKETS]) (by decide)⟩

theorem finishNearest_of_none (pr : String × Option ℚ) (h : pr.2 = none) :
    finishNearest pr = "At Large" := by
  obtain ⟨nm, nd⟩ := pr
  simp only at h
  subst h
  rfl

theorem finishNearest_of_high (pr : String × Option ℚ) (x : ℚ) (h : pr.2 = some x)
    (hx : 30 < x) : finishNearest pr = "At Large" := by
  obtain ⟨nm, nd⟩ := pr
  simp only at h
  subst h
  simp [finishNearest, not_le.mpr hx]

theorem finishNearest_of_low (pr : String × Option ℚ) (x : ℚ) (h : pr.2 = some x)
    (hx : x ≤ 30) : finishNearest pr = pr.1 := by
  obtain ⟨nm, nd⟩ := pr
  simp only at h
  subst h
  simp [finishNearest, hx]

theorem nearestLoop_keep (dist : ℚ × ℚ → ℚ) (l : List (String × ℚ × ℚ)) :
    ∀ (nm : String) (dm : ℚ), (∀ p ∈ l, ¬ dist p.2 < dm) →
    nearestLoop dist l (nm, some dm) = (nm, some dm) := by
  induction l with
  | nil => intro nm dm _; rfl
  | cons a t ih =>
    intro nm dm h
    have ha : ¬ dist a.2 < dm := h a (List.mem_cons_self a t)
    simp only [nearestLoop, ha, decide_False]
    exact ih nm dm (fun p hp => h p (List.mem_cons_of_mem a hp))

theorem nearestLoop_high (dist : ℚ × ℚ → ℚ) (l : List (String × ℚ × ℚ)) :
    ∀ (nm : String) (nd : Option ℚ),
    (∀ p ∈ l, 30 < dist p.2) →
    (nd = none ∨ ∃ x, nd = some x ∧ 30 < x) →
    (nearestLoop dist l (nm, nd)).2 = none ∨
      ∃ x, (nearestLoop dist l (nm, nd)).2 = some x ∧ 30 < x := by
  induction l with
  | nil =>
    intro nm nd _ hacc
    rcases hacc with rfl | ⟨x, rfl, hx⟩
    · exact Or.inl rfl
    · exact Or.inr ⟨x, rfl, hx⟩
  | cons a t ih =>
    intro nm nd hall hacc
    have ha : 30 < dist a.2 := hall a (List.mem_cons_self a t)
    have hall' : ∀ p ∈ t, 30 < dist p.2 := fun p hp => hall p (List.mem_cons_of_mem a hp)
    rcases hacc with rfl | ⟨x, rfl, hx⟩
    · simp only [nearestLoop]
      exact ih a.1 (some (dist a.2)) hall' (Or.inr ⟨_, rfl, ha⟩)
    · by_cases hlt : dist a.2 < x
      · simp only [nearestLoop, hlt, decide_True, if_true]
        exact ih a.1 (some (dist a.2)) hall' (Or.inr ⟨_, rfl, ha⟩)
      · simp only [nearestLoop, hlt, decide_False, if_false]
        exact ih nm (some x) hall' (Or.inr ⟨x, rfl, hx⟩)

theorem nearestLoop_min (dist : ℚ × ℚ → ℚ) (l : List (String × ℚ × ℚ))
    (m : String × ℚ × ℚ) :
    ∀ (nm : String) (nd : Option ℚ),
    m ∈ l →
    (∀ p ∈ l, p ≠ m → dist m.2 < dist p.2) →
    (nd = none ∨ ∃ x, nd = some x ∧ dist m.2 < x) →
    nearestLoop dist l (nm, nd) = (m.1, some (dist m.2)) := by
  induction l with
  | nil => intro _ _ h _ _; cases h
  | cons a t ih =>
    intro nm nd hm hmin hacc
    by_cases ham : a = m
    · subst ham
      have hkeep : ∀ p ∈ t, ¬ dist p.2 < dist a.2 := by
        intro p hp
        by_cases hpm : p = a
        · subst hpm; exact lt_irrefl _
        · exact not_lt_of_gt (hmin p (List.mem_cons_of_mem a hp) hpm)
      rcases hacc with rfl | ⟨x, rfl, hx⟩
      · simp only [nearestLoop]
        exact nearestLoop_keep dist t a.1 (dist a.2) hkeep
      · simp only [nearestLoop, hx, decide_True, if_true]
        exact nearestLoop_keep dist t a.1 (dist a.2) hkeep
    · have hmt : m ∈ t := by
        rcases List.mem_cons.mp hm with h | h
        · exact absurd h.symm ham
        · exact h
      have hda : dist m.2 < dist a.2 := hmin a (List.mem_cons_self a t) ham
      have hmin' : ∀ p ∈ t, p ≠ m → dist m.2 < dist p.2 :=
        fun p hp hpm => hmin p (List.mem_cons_of_mem a hp) hpm
      rcases hacc with rfl | ⟨x, rfl, hx⟩
      · simp only [nearestLoop]
        exact ih a.1 (some (dist a.2)) hmt hmin' (Or.inr ⟨_, rfl, hda⟩)
      · by_cases hlt : dist a.2 < x
        · simp only [nearestLoop, hlt, decide_True, if_true]
          exact ih a.1 (some (dist a.2)) hmt hmin' (Or.inr ⟨_, rfl, hda⟩)
        · simp only [nearestLoop, hlt, decide_False, if_false]
          exact ih nm (some x) hmt hmin' (Or.inr ⟨x, rfl, hx⟩)

/-- C3: when a location reaches the geocoding step (no shortlist hit, no exact
name match) and geocodes successfully, `getMarket` applies the distance
function to the geocoded coordinate and every market anchor: it returns
"At Large" when every anchor is at distance above the 30-mile threshold, and
the market of (unique) minimum distance when that minimum is at most 30.
Stated for every distance function `d`, hence in particular for the
transcendental haversine distance of the source. -/
theorem resolve_geocode_nearest (loc : String) (g : String → Option (ℚ × ℚ))
    (d : ℚ × ℚ → ℚ × ℚ → ℚ) (coords : ℚ × ℚ)
    (hshort : (AT_LARGE_CITIES.any fun city => jsIncludes (jsToLower loc) city) = false)
    (hname : MARKETS.find? (fun m => jsToLower m.1 == jsToLower loc) = none)
    (hgeo : g loc = some coords) :
    ((∀ m ∈ MARKETS, 30 < d coords m.2) → getMarket g d loc = "At Large")
    ∧ (∀ m ∈ MARKETS, d coords m.2 ≤ 30 →
        (∀ m' ∈ MARKETS, m' ≠ m → d coords m.2 < d coords m'.2) →
        getMarket g d loc = m.1) := by
  have hred : getMarket g d loc =
      finishNearest (nearestLoop (fun a => d coords a) MARKETS ("At Large", none)) := by
    simp [getMarket, getMarketOver, hshort, hname, hgeo]
  constructor
  · intro hall
    rw [hred]
    rcases nearestLoop_high (fun a => d coords a) MARKETS "At Large" none hall (Or.inl rfl) with
      h | ⟨x, h, hx⟩
    · exact finishNearest_of_none _ h
    · exact finishNearest_of_high _ x h hx
  · intro m hm hle hmin
    rw [hred]
    rw [nearestLoop_min (fun a => d coords a) MARKETS m "At Large" none hm hmin (Or.inl rfl)]
    exact finishNearest_of_low _ (d coords m.2) rfl hle

/-- Witness for C3: with distance "latitude minus 30", the unique nearest
anchor to any coordinate is Liberal (smallest latitude) at distance about 7,
whereas the constant distance 50 exceeds the threshold everywhere. -/
theorem resolve_geocode_nearest_witness :
    getMarket (fun _ => some (2, 3)) (fun _ a => a.1 - 30) "Zzz" = "Liberal"
    ∧ getMarket (fun _ => some (2, 3)) (fun _ _ => 50) "Zzz" = "At Large" :=
  ⟨(resolve_geocode_nearest "Zzz" (fun _ => some (2, 3)) (fun _ a => a.1 - 30)
      (2, 3) (by decide) (by decide) rfl).2
      ("Liberal", 37.0431, -100.9212) (by simp [MARKETS]) (by norm_num)
      (by
        intro m' hm' hne
        fin_cases hm' <;> first | exact absurd rfl hne | norm_num),
   (resolve_geocode_nearest "Zzz" (fun _ => some (2, 3)) (fun _ _ => 50)
      (2, 3) (by decide) (by decide) rfl).1
      (by intro m hm; norm_num)⟩

/-! ## Injectivity of decimal representation (for the synthetic topic URLs) -/

/-- Decimal digit value, a left inverse of `Nat.digitChar` below 10. -/
def digitVal (c : Char) : Nat :=
  if c = '0' then 0 else if c = '1' then 1 else if c = '2' then 2 else
  if c = '3' then 3 else if c = '4' then 4 else if c = '5' then 5 else
  if c = '6' then 6 else if c = '7' then 7 else if c = '8' then 8 else 9

/-- Reads a decimal digit string back into a number. -/
def decodeDigits (l : List Char) : Nat :=
  l.foldl (fun acc c => acc * 10 + digitVal c) 0

theorem digitVal_digitChar (m : Nat) (h : m < 10) : digitVal (Nat.digitChar m) = m := by
  interval_cases m <;> decide

theorem toDigitsCore_append (n : Nat) : ∀ (fuel : Nat) (ds : List Char), n < fuel →
    Nat.toDigitsCore 10 fuel n ds = Nat.toDigitsCore 10 (n + 1) n [] ++ ds := by
  induction n using Nat.strong_induction_on with
  | _ n ih =>
    intro fuel ds hfuel
    obtain ⟨f, rfl⟩ : ∃ f, fuel = f + 1 := ⟨fuel - 1, by omega⟩
    by_cases h0 : n / 10 = 0
    · simp only [Nat.toDigitsCore, h0, if_true]
      rfl
    · have hge : 10 ≤ n := by omega
      have hlt : n / 10 < n := Nat.div_lt_self (by omega) (by norm_num)
      have hf : n / 10 < f := by omega
      simp only [Nat.toDigitsCore, h0, if_false]
      rw [ih (n / 10) hlt f (Nat.digitChar (n % 10) :: ds) hf,
          ih (n / 10) hlt n [Nat.digitChar (n % 10)] (by omega)]
      simp

theorem decodeDigits_toDigits (n : Nat) : decodeDigits (Nat.toDigits 10 n) = n := by
  induction n using Nat.strong_induction_on with
  | _ n ih =>
    unfold Nat.toDigits
    by_cases h0 : n / 10 = 0
    · have hn : n < 10 := by omega
      simp only [Nat.toDigitsCore, h0, if_true]
      simp [decodeDigits, digitVal_digitChar (n % 10) (Nat.mod_lt _ (by norm_num))]
      omega
    · have hlt : n / 10 < n := Nat.div_lt_self (by omega) (by norm_num)
      simp only [Nat.toDigitsCore, h0, if_false]
      rw [toDigitsCore_append (n / 10) n [Nat.digitChar (n % 10)] hlt]
      rw [decodeDigits, List.foldl_append]
      simp only [List.foldl]
      have hrec : List.foldl (fun acc c => acc * 10 + digitVal c) 0
          (Nat.toDigitsCore 10 (n / 10 + 1) (n / 10) []) = n / 10 := ih (n / 10) hlt
      rw [hrec, digitVal_digitChar (n % 10) (Nat.mod_lt _ (by norm_num))]
      omega

theorem natRepr_injective {a b : Nat} (h : Nat.repr a = Nat.repr b) : a = b := by
  have hd : Nat.toDigits 10 a = Nat.toDigits 10 b := congrArg String.data h
  have ha := decodeDigits_toDigits a
  rw [hd, decodeDigits_toDigits b] at ha
  exact ha.symm

theorem string_append_cancel_left (s a b : String) (h : s ++ a = s ++ b) : a = b := by
  obtain ⟨ls⟩ := s; obtain ⟨la⟩ := a; obtain ⟨lb⟩ := b
  have hd : ls ++ la = ls ++ lb := congrArg String.data h
  have := List.append_cancel_left hd
  rw [this]

/-- C4: the fan-out keys topic `i` of `N` by the synthetic URL used in the
upserted record: for N = 1 the original URL unchanged, for N > 1 the original
URL plus a suffix carrying the 1-based topic number; the N synthetic URLs are
pairwise distinct, and each derives from the base URL (has it as a prefix). -/
theorem fanout_url_scheme (url : String) (n : Nat) :
    topicUrl url 1 0 = url
    ∧ (1 < n → ∀ i, topicUrl url n i = url ++ "?topic=" ++ Nat.repr (i + 1))
    ∧ (∀ i, ∃ s, topicUrl url n i = url ++ s)
    ∧ ((List.range n).map (topicUrl url n)).Nodup
    ∧ (∀ (g : String → Option (ℚ × ℚ)) (d : ℚ × ℚ → ℚ × ℚ → ℚ) (sid : Int)
        (ot c p now : String) (total i : Nat) (t : Topic),
        (fanoutRecord g d sid ot url c p now total i t).url = topicUrl url total i) := by
  refine ⟨by norm_num [topicUrl], ?_, ?_, ?_, fun _ _ _ _ _ _ _ _ _ _ => rfl⟩
  · intro h i
    simp [topicUrl, h]
  · intro i
    by_cases h : n > 1
    · exact ⟨"?topic=" ++ Nat.repr (i + 1), by simp [topicUrl, h, String.append_assoc]⟩
    · refine ⟨"", ?_⟩
      simp [topicUrl, h]
  · have hinj : ∀ i ∈ List.range n, ∀ j ∈ List.range n,
        topicUrl url n i = topicUrl url n j → i = j := by
      by_cases h1 : n > 1
      · intro i _ j _ hij
        simp only [topicUrl, if_pos h1] at hij
        have h2 := string_append_cancel_left _ _ _ hij
        have h3 := natRepr_injective h2
        omega
      · intro i hi j hj _
        simp only [List.mem_range] at hi hj
        omega
    exact (List.nodup_range n).map_on hinj

/-- Witness for C4 at N = 3. -/
theorem fanout_url_scheme_witness :
    topicUrl "https://x/a" 1 0 = "https://x/a"
    ∧ topicUrl "https://x/a" 3 0 = "https://x/a" ++ "?topic=" ++ Nat.repr 1
    ∧ ((List.range 3).map (topicUrl "https://x/a" 3)).Nodup :=
  ⟨(fanout_url_scheme "https://x/a" 3).1,
   (fanout_url_scheme "https://x/a" 3).2.1 (by norm_num) 0,
   (fanout_url_scheme "https://x/a" 3).2.2.2.1⟩

theorem fanoutGo_eq (g : String → Option (ℚ × ℚ)) (d : ℚ × ℚ → ℚ × ℚ → ℚ)
    (sid : Int) (ot url c p now : String) (upsert : Nat → ArticleRecord → Option Int)
    (total : Nat) :
    ∀ (i0 : Nat) (ts : List Topic),
    fanoutGo g d sid ot url c p now upsert total i0 ts =
      (ts.enumFrom i0).filterMap (fun je =>
        (upsert je.1 (fanoutRecord g d sid ot url c p now total je.1 je.2)).map
          (fun aid => { id := aid, title := je.2.title, location := je.2.location,
                        market := getMarket g d je.2.location })) := by
  intro i0 ts
  induction ts generalizing i0 with
  | nil => rfl
  | cons t rest ih =>
    show fanoutGo g d sid ot url c p now upsert total i0 (t :: rest) =
      List.filterMap _ ((i0, t) :: List.enumFrom (i0 + 1) rest)
    rw [List.filterMap_cons]
    simp only [fanoutGo]
    cases hu : upsert i0 (fanoutRecord g d sid ot url c p now total i0 t) with
    | none => simp [hu, ih]
    | some aid => simp [hu, ih]

/-- C7: during the multi-topic fan-out a failed upsert is skipped without
aborting the run — an upsert success at any index lands in the collected
`insertedArticles` regardless of what the upsert oracle does at every other
index, and conversely every collected entry comes from an upsert that
succeeded (the success response lists exactly the articles written). -/
theorem fanout_skips_failed_upserts (g : String → Option (ℚ × ℚ))
    (d : ℚ × ℚ → ℚ × ℚ → ℚ) (sid : Int) (ot url c p now : String)
    (upsert : Nat → ArticleRecord → Option Int) (topics : List Topic) :
    (∀ it ∈ topics.enumFrom 0, ∀ aid : Int,
      upsert it.1 (fanoutRecord g d sid ot url c p now topics.length it.1 it.2) = some aid →
      ({ id := aid, title := it.2.title, location := it.2.location,
         market := getMarket g d it.2.location } : InsertedEntry) ∈
        fanout g d sid ot url c p now upsert topics)
    ∧ (∀ e ∈ fanout g d sid ot url c p now upsert topics,
        ∃ it ∈ topics.enumFrom 0,
          upsert it.1 (fanoutRecord g d sid ot url c p now topics.length it.1 it.2) =
            some e.id ∧
          e = { id := e.id, title := it.2.title, location := it.2.location,
                market := getMarket g d it.2.location }) := by
  constructor
  · intro it hit aid hu
    rw [fanout, fanoutGo_eq]
    exact List.mem_filterMap.mpr ⟨it, hit, by rw [hu]; rfl⟩
  · intro e he
    rw [fanout, fanoutGo_eq] at he
    obtain ⟨it, hit, hmap⟩ := List.mem_filterMap.mp he
    cases hu : upsert it.1 (fanoutRecord g d sid ot url c p now topics.length it.1 it.2) with
    | none => rw [hu] at hmap; simp at hmap
    | some aid =>
      rw [hu] at hmap
      simp only [Option.map_some'] at hmap
      obtain rfl := Option.some.inj hmap
      exact ⟨it, hit, by rw [hu], rfl⟩

/-- Witness for C7: three topics with the upsert failing at index 1; the
successes at indices 0 and 2 both appear in the collected list. -/
theorem fanout_skips_failed_upserts_witness :
    ({ id := 2, title := "t3", location := "Hays",
       market := getMarket (fun _ => none) (fun _ _ => 0) "Hays" } : InsertedEntry) ∈
      fanout (fun _ => none) (fun _ _ => 0) 1 "O" "https://x/a" "c" "p" "now"
        (fun i _ => if i = 1 then none else some (Int.ofNat i))
        [⟨"t1", "Salina", true, "b", 4⟩, ⟨"t2", "Newton", true, "b", 4⟩,
         ⟨"t3", "Hays", true, "b", 4⟩] :=
  (fanout_skips_failed_upserts (fun _ => none) (fun _ _ => 0) 1 "O" "https://x/a" "c" "p" "now"
      (fun i _ => if i = 1 then none else some (Int.ofNat i))
      [⟨"t1", "Salina", true, "b", 4⟩, ⟨"t2", "Newton", true, "b", 4⟩,
       ⟨"t3", "Hays", true, "b", 4⟩]).1
    (2, ⟨"t3", "Hays", true, "b", 4⟩) (by decide) 2 rfl

/-- Witness for C10 at a concrete oracle and distance function. -/
theorem markets_tables_differ_witness :
    "Newton" ∈ MARKETS.map Prod.fst
    ∧ "Newton" ∉ REPROCESS_MARKETS.map Prod.fst
    ∧ getMarket (fun _ => none) (fun _ _ => 0) "Newton" = "Newton"
    ∧ reprocessGetMarket (fun _ => none) (fun _ _ => 0) "Newton" = "At Large" :=
  ⟨(markets_tables_differ (fun _ => none) (fun _ _ => 0)).1,
   (markets_tables_differ (fun _ => none) (fun _ _ => 0)).2.1,
   (markets_tables_differ (fun _ => none) (fun _ _ => 0)).2.2.1,
   (markets_tables_differ (fun _ => none) (fun _ _ => 0)).2.2.2.1⟩

end Xanadu
